import Mathlib

/-!
Verification development for the BrightSign asset-pool example repository.

The repository's one source file, `src/bs-assetpool-example.js`, is a driver
script over the asset-pool libraries (`@brightsign/assetpool`,
`@brightsign/assetpoolfetcher`, `@brightsign/assetpoolfiles`,
`@brightsign/assetrealizer`).  The script's own helpers
(`progressString`, `ensureDirectoryExists`) are embedded here directly from
their JavaScript source.  The pool / fetcher operations the script calls live
in the libraries, whose code is not part of the repository; those operations
are modelled from the specification's own wording, with each such definition
marked `Modelled from the spec:` in its doc comment.
-/

namespace AssetPool

/-- Hash field of an asset descriptor: algorithm tag plus hex digest,
as built in `makeAssetCollection` (e.g. `{ method: "SHA256", hex: "..." }`). -/
structure Hash where
  method : String
  hex : String
deriving DecidableEq, Repr

/-- AssetDescriptor as built in `makeAssetCollection`: a `name`, a `hash`,
a `link` and an optional `size`; caller-defined extra fields (like `osUpdate`)
are ignored by the core and omitted here. -/
structure AssetDescriptor where
  name : String
  hash : Hash
  link : String
  size : Option Nat := none
deriving DecidableEq, Repr

/-- Modelled from the spec: a committed PoolEntry of the pool store (the
PoolStore component is in the `@brightsign/assetpool` library, not in this
repository): content digest, byte size, storage path, last-access timestamp.
The protection reference count is not stored here: it is derived from the
protection tags (see `refcount`). -/
structure PoolEntry where
  digest : Hash
  size : Nat
  path : String
  lastAccess : Nat
deriving DecidableEq, Repr

/-- Modelled from the spec: the error kinds of the pool machinery
(the library code is not in this repository). -/
inductive PoolError where
  | capacityError
  | notReadyError
  | lockError
deriving DecidableEq, Repr

/-- Modelled from the spec: the state of a PoolStore (the PoolStore component
is in the `@brightsign/assetpool` library, not in this repository): the
committed entries in insertion order, the protection tags (each tag maps to
the asset names it protects), and the configured byte cap. -/
structure PoolState where
  entries : List (String × PoolEntry)
  protections : List (String × List String)
  maxPoolSize : Nat
deriving DecidableEq, Repr

/-- Modelled from the spec: an asset's effective protection refcount is the
number of protection tags whose set contains the asset's name (refcounted,
not boolean). -/
def refcount (s : PoolState) (name : String) : Nat :=
  (s.protections.filter (fun p => decide (name ∈ p.2))).length

/-- Modelled from the spec: total pool usage, the sum of committed entry sizes. -/
def usage (s : PoolState) : Nat :=
  (s.entries.map (fun e => e.2.size)).sum

/-- Modelled from the spec: total size of the protected entries (those with
nonzero protection refcount). -/
def protectedSize (s : PoolState) : Nat :=
  ((s.entries.filter (fun e => decide (refcount s e.1 ≠ 0))).map (fun e => e.2.size)).sum

/-- Modelled from the spec: eviction candidates are the committed entries
with protection refcount 0 (in pool insertion order). -/
def evictionCandidates (s : PoolState) : List (String × PoolEntry) :=
  s.entries.filter (fun e => decide (refcount s e.1 = 0))

/-- Modelled from the spec: pick the candidate with the oldest access time,
ties broken by insertion order (strict LRU). -/
def pickOldest : List (String × PoolEntry) → Option (String × PoolEntry)
  | [] => none
  | e :: es =>
    match pickOldest es with
    | none => some e
    | some b => some (if b.2.lastAccess < e.2.lastAccess then b else e)

/-- Remove the first occurrence of a given entry from the entry list. -/
def removeFirst (v : String × PoolEntry) : List (String × PoolEntry) → List (String × PoolEntry)
  | [] => []
  | e :: es => if e = v then es else e :: removeFirst v es

/-- Modelled from the spec: remove one victim entry from the pool state. -/
def removeVictim (s : PoolState) (v : String × PoolEntry) : PoolState :=
  { s with entries := removeFirst v s.entries }

/-- Modelled from the spec: the eviction loop, fuel-indexed for structural
recursion (the fuel is always at least the number of entries, so the
fuel-exhausted branch is unreachable).  While usage exceeds the cap, evict
the oldest refcount-0 candidate, one at a time, re-checking after each
removal; if candidates run out first, fail with `CapacityError`.  Returns the
final state and the evicted entries in eviction order. -/
def evictLoopAux (cap : Nat) :
    Nat → PoolState → Except PoolError (PoolState × List (String × PoolEntry))
  | fuel, s =>
    if usage s ≤ cap then Except.ok (s, [])
    else
      match pickOldest (evictionCandidates s) with
      | none => Except.error PoolError.capacityError
      | some v =>
        match fuel with
        | 0 => Except.error PoolError.capacityError
        | f + 1 =>
          match evictLoopAux cap f (removeVictim s v) with
          | Except.ok (s2, ev) => Except.ok (s2, v :: ev)
          | Except.error e => Except.error e

/-- Modelled from the spec: run the eviction algorithm until total usage is
at or below `cap`, or fail with `CapacityError` when compliance is
unreachable. -/
def evictLoop (cap : Nat) (s : PoolState) :
    Except PoolError (PoolState × List (String × PoolEntry)) :=
  evictLoopAux cap s.entries.length s

/-- Modelled from the spec: `setMaximumPoolSize(bytes)` updates the cap and,
if current usage exceeds the new cap, immediately runs the eviction
algorithm; on `CapacityError` the call fails and commits nothing (the
original state is kept).  Returns the resulting state, the evicted entries
in order, and the error if any. -/
def setMaximumPoolSize (s : PoolState) (bytes : Nat) :
    PoolState × List (String × PoolEntry) × Option PoolError :=
  match evictLoop bytes { s with maxPoolSize := bytes } with
  | Except.ok (s2, ev) => (s2, ev, none)
  | Except.error e => (s, [], some e)

/-- Modelled from the spec: `protectAssets(tag, collection)` records the
collection's asset names under `tag` (idempotent per tag: re-protecting the
same tag replaces its set). -/
def protectAssets (s : PoolState) (tag : String) (coll : List AssetDescriptor) : PoolState :=
  { s with protections :=
      (tag, coll.map (fun a => a.name)) :: s.protections.filter (fun p => decide (p.1 ≠ tag)) }

/-- Modelled from the spec: `unprotectAssets(tag)` drops the tag, decrementing
the refcount of every asset it referenced; assets reaching zero become
eviction-eligible. -/
def unprotectAssets (s : PoolState) (tag : String) : PoolState :=
  { s with protections := s.protections.filter (fun p => decide (p.1 ≠ tag)) }

/-- Modelled from the spec: the committed entry currently indexed under an
asset name, if any. -/
def entryFor (s : PoolState) (name : String) : Option PoolEntry :=
  List.lookup name s.entries

/-- Modelled from the spec: whether the pool already holds a committed,
digest-verified entry matching the descriptor's declared hash. -/
def hasVerifiedEntry (s : PoolState) (a : AssetDescriptor) : Bool :=
  match entryFor s a.name with
  | some e => decide (e.digest = a.hash)
  | none => false

/-- Modelled from the spec: `areAssetsReady(collection)` is true iff every
asset in the collection has a committed PoolEntry whose digest matches its
descriptor's declared hash. -/
def areAssetsReady (s : PoolState) (coll : List AssetDescriptor) : Bool :=
  coll.all (fun a => hasVerifiedEntry s a)

/-- Modelled from the spec: `getPath(name)` resolves to the filesystem path
of the asset's current verified PoolEntry, or fails with `NotReadyError`;
it is purely a read, so the pool state is returned unchanged. -/
def getPath (s : PoolState) (name : String) : Except PoolError String × PoolState :=
  match entryFor s name with
  | some e => (Except.ok e.path, s)
  | none => (Except.error PoolError.notReadyError, s)

/-- Modelled from the spec: the kinds of per-asset transfer failure the
fetcher can encounter (network error, minimum-rate violation, hash mismatch,
capacity error). -/
inductive FetchFailure where
  | networkError
  | rateViolation
  | hashMismatch
  | capacityError
deriving DecidableEq, Repr

/-- Modelled from the spec: the outcome of one transfer attempt for one
asset: either the bytes stream, digest-verify and can be committed as an
entry, or the attempt fails with some failure kind. -/
inductive AttemptOutcome where
  | success (entry : PoolEntry)
  | failure (kind : FetchFailure)
deriving DecidableEq, Repr

/-- Environment abstracting the network and device: for each asset name and
attempt number, the outcome that attempt would have. -/
def FetchEnv : Type := String → Nat → AttemptOutcome

/-- FetchOptions as passed to `assetFetcher.start` in the example script:
`progressInterval`, `fileRetryCount`, `minimumTransferRate`
(`bytesPerSecond`, `periodInSeconds`). -/
structure FetchOptions where
  progressInterval : Nat
  fileRetryCount : Nat
  minimumTransferRate : Nat × Nat
deriving DecidableEq, Repr

/-- A "file" event as observed by the `fileevent` listener in the example
script: index, file name, response code, and an error that is absent on
success. -/
structure FileEvent where
  index : Nat
  fileName : String
  responseCode : Nat
  error : Option String
deriving DecidableEq, Repr

/-- Error string reported in a "file" event for each failure kind. -/
def failureMessage : FetchFailure → String
  | FetchFailure.networkError => "NetworkError"
  | FetchFailure.rateViolation => "MinimumTransferRateError"
  | FetchFailure.hashMismatch => "HashMismatchError"
  | FetchFailure.capacityError => "CapacityError"

/-- Modelled from the spec: run transfer attempts for one asset starting at
attempt number `i` with `remaining` retries left beyond the current attempt;
stop at the first success, otherwise retry until retries are exhausted.
Returns the number of attempts actually made and the final outcome. -/
def attemptsFrom (env : FetchEnv) (name : String) : Nat → Nat → Nat × AttemptOutcome
  | i, remaining =>
    match env name i, remaining with
    | AttemptOutcome.success e, _ => (1, AttemptOutcome.success e)
    | AttemptOutcome.failure k, 0 => (1, AttemptOutcome.failure k)
    | AttemptOutcome.failure _, r + 1 =>
      let p := attemptsFrom env name (i + 1) r
      (p.1 + 1, p.2)

/-- Modelled from the spec: the per-asset result of a fetch run. -/
inductive AssetStatus where
  | skipped
  | fetched (entry : PoolEntry)
  | failed (kind : FetchFailure)
deriving DecidableEq, Repr

/-- Modelled from the spec: promote a verified temporary file into a
committed PoolEntry. -/
def commitEntry (s : PoolState) (name : String) (e : PoolEntry) : PoolState :=
  { s with entries := s.entries ++ [(name, e)] }

/-- Modelled from the spec (and the source comment at
src/bs-assetpool-example.js lines 85-91): process one asset.  Skip
immediately, with no transfer and no "file" event, if the pool already holds
a verified matching entry; otherwise run up to `fileRetryCount + 1` attempts
and emit exactly one "file" event after the final attempt, with the error
field absent exactly on success.  Returns the new state, the asset status,
the optional "file" event, and the number of transfer attempts performed. -/
def fetchAsset (env : FetchEnv) (opts : FetchOptions) (s : PoolState) (idx : Nat)
    (a : AssetDescriptor) : PoolState × AssetStatus × Option FileEvent × Nat :=
  if hasVerifiedEntry s a then (s, AssetStatus.skipped, none, 0)
  else
    let p := attemptsFrom env a.name 0 opts.fileRetryCount
    match p.2 with
    | AttemptOutcome.success e =>
      (commitEntry s a.name e, AssetStatus.fetched e,
        some { index := idx, fileName := a.name, responseCode := 200, error := none }, p.1)
    | AttemptOutcome.failure k =>
      (s, AssetStatus.failed k,
        some { index := idx, fileName := a.name, responseCode := 0,
               error := some (failureMessage k) }, p.1)

/-- Modelled from the spec: process every asset of the collection in order,
independently — an asset's failure never aborts the processing of its
siblings.  `i` is the original collection index of the first asset in the
remaining list.  Returns the final state, one (status, optional event) pair
per asset in collection order, and the total number of transfer attempts. -/
def processAssets (env : FetchEnv) (opts : FetchOptions) :
    PoolState → Nat → List AssetDescriptor →
      PoolState × List (AssetStatus × Option FileEvent) × Nat
  | s, _, [] => (s, [], 0)
  | s, i, a :: rest =>
    let r := fetchAsset env opts s i a
    let q := processAssets env opts r.1 (i + 1) rest
    (q.1, (r.2.1, r.2.2.1) :: q.2.1, r.2.2.2 + q.2.2)

/-- Result of a completed `start()` run: final pool state, the per-asset
statuses and "file" events in collection order, and the total number of
network transfer attempts. -/
structure StartResult where
  state : PoolState
  perAsset : List (AssetStatus × Option FileEvent)
  transfers : Nat
deriving DecidableEq, Repr

/-- The "file" events of a run, in emission order. -/
def StartResult.events (r : StartResult) : List FileEvent :=
  r.perAsset.filterMap (fun x => x.2)

/-- Modelled from the spec: `Fetcher.start(collection, options)` rejects
only on structural problems preventing any processing (modelled by the
`poolUsable` flag: an unusable pool rejects with a lock error); otherwise it
processes every asset and resolves, whatever the individual outcomes. -/
def start (env : FetchEnv) (poolUsable : Bool) (s : PoolState)
    (coll : List AssetDescriptor) (opts : FetchOptions) : Except PoolError StartResult :=
  if poolUsable then
    let r := processAssets env opts s 0 coll
    Except.ok { state := r.1, perAsset := r.2.1, transfers := r.2.2 }
  else Except.error PoolError.lockError


/-- Concrete hash used by the witness states below. -/
def hashA : Hash := ⟨"SHA256", "aa"⟩

/-- A second concrete hash. -/
def hashB : Hash := ⟨"SHA256", "bb"⟩

/-- A committed entry carrying `hashA`. -/
def entryA : PoolEntry := ⟨hashA, 10, "pool/aa", 5⟩

/-- A committed entry carrying `hashB`, older access time than `entryA`. -/
def entryB : PoolEntry := ⟨hashB, 20, "pool/bb", 3⟩

/-- A descriptor declaring `hashA` for the asset named "a.mpg". -/
def assetA : AssetDescriptor := { name := "a.mpg", hash := hashA, link := "srv/a.mpg" }

/-- An empty pool. -/
def poolEmpty : PoolState := ⟨[], [], 500⟩

/-- A pool holding `entryA` (protected under tag "t") and `entryB` (unprotected). -/
def poolAB : PoolState := ⟨[("a.mpg", entryA), ("b.mp4", entryB)], [("t", ["a.mpg"])], 500⟩

/-- `poolAB` after its only eviction candidate has been evicted. -/
def poolA2 : PoolState := ⟨[("a.mpg", entryA)], [("t", ["a.mpg"])], 500⟩

/-- A pool that already holds a verified entry for `assetA`. -/
def poolReady : PoolState := ⟨[("a.mpg", entryA)], [], 500⟩

/-- The fetch options used by the example script. -/
def optsEx : FetchOptions :=
  { progressInterval := 5, fileRetryCount := 3, minimumTransferRate := (1024, 10) }

/-- An environment whose every attempt fails with a network error. -/
def envFail : FetchEnv := fun _ _ => AttemptOutcome.failure FetchFailure.networkError

/-- The result of running the fetcher over `[assetA]` on `poolEmpty` under
`envFail`: four failed attempts and one "file" event reporting the failure. -/
def runFailR : StartResult :=
  { state := poolEmpty,
    perAsset := [(AssetStatus.failed FetchFailure.networkError,
      some { index := 0, fileName := "a.mpg", responseCode := 0,
             error := some "NetworkError" })],
    transfers := 4 }


end AssetPool

namespace ExampleScript

/-- Model of a JavaScript number as it arises in `progressString`:
either NaN, positive infinity, or a finite (exact rational) value. -/
inductive JSNum where
  | nan
  | posInf
  | num (q : ℚ)
deriving DecidableEq, Repr

/-- JavaScript division of the nonnegative integer `a` by the nonnegative
integer `m`, as performed by `100*event.currentFileTransferred /
event.currentFileTotal`: division by zero yields NaN when the numerator is
zero and +Infinity otherwise; otherwise the exact quotient. -/
def jsDiv (a m : Nat) : JSNum :=
  if m = 0 then (if a = 0 then JSNum.nan else JSNum.posInf)
  else JSNum.num ((a : ℚ) / (m : ℚ))

/-- JavaScript `Number.prototype.toFixed(0)`: NaN renders as `"NaN"`,
+Infinity as `"Infinity"`, and a finite value rounds to the nearest integer
(ties away from zero for nonnegative values). -/
def toFixed0 : JSNum → String
  | JSNum.nan => "NaN"
  | JSNum.posInf => "Infinity"
  | JSNum.num q => toString (Rat.floor (q + 1/2))

/-- Progress event as consumed by `progressString` in the example script:
`currentFileTransferred` is a numeric byte count, `currentFileTotal` is
absent (`undefined`) when the asset collection declared no size. -/
structure ProgressEvent where
  index : Nat
  total : Nat
  fileName : String
  currentFileTransferred : Nat
  currentFileTotal : Option Nat
deriving DecidableEq, Repr

/-- Embedding of `progressString` (src/bs-assetpool-example.js lines 65-75):
if `event.currentFileTotal` is undefined, report `"<n> of unknown"`,
otherwise `"<n> of <m> <p>%"` with the percentage computed by an unguarded
division. -/
def progressString (event : ProgressEvent) : String :=
  match event.currentFileTotal with
  | none => toString event.currentFileTransferred ++ " of unknown"
  | some m =>
    toString event.currentFileTransferred ++ " of " ++ toString m ++ " "
      ++ toFixed0 (jsDiv (100 * event.currentFileTransferred) m) ++ "%"

/-- A JavaScript error value as thrown by `fs.mkdirSync`, carrying a `code`
string such as `'EEXIST'`. -/
structure JSError where
  code : String
deriving DecidableEq, Repr

/-- State of the filesystem as far as `mkdirSync` is concerned:
the set of directories that exist. -/
structure FileSystem where
  dirs : List String
deriving DecidableEq, Repr

/-- Behaviour of `fs.mkdirSync` on the filesystem model: fails with code
`'EEXIST'` when the directory already exists, otherwise creates it. -/
def mkdirSync (fs : FileSystem) (path : String) : Except JSError FileSystem :=
  if path ∈ fs.dirs then Except.error ⟨"EEXIST"⟩
  else Except.ok ⟨path :: fs.dirs⟩

/-- Embedding of `ensureDirectoryExists` (src/bs-assetpool-example.js lines
146-154), parameterised by the ambient `mkdir` operation: try `mkdir path`;
on an error whose code is not `'EEXIST'`, rethrow; otherwise return normally. -/
def ensureDirectoryExists (mkdir : String → Except JSError FileSystem)
    (path : String) : Except JSError Unit :=
  match mkdir path with
  | Except.ok _ => Except.ok ()
  | Except.error err => if err.code ≠ "EEXIST" then Except.error err else Except.ok ()

end ExampleScript

namespace AssetPool

theorem pickOldest_eq_none {l : List (String × PoolEntry)}
    (h : pickOldest l = none) : l = [] := by
  cases l with
  | nil => rfl
  | cons e es =>
    simp only [pickOldest] at h
    cases hp : pickOldest es with
    | none => rw [hp] at h; simp at h
    | some b => rw [hp] at h; simp at h

theorem pickOldest_mem {l : List (String × PoolEntry)} :
    ∀ {v : String × PoolEntry}, pickOldest l = some v → v ∈ l := by
  induction l with
  | nil => intro v h; simp [pickOldest] at h
  | cons e es ih =>
    intro v h
    cases hp : pickOldest es with
    | none =>
      simp only [pickOldest, hp, Option.some.injEq] at h
      simp [← h]
    | some b =>
      simp only [pickOldest, hp, Option.some.injEq] at h
      by_cases hlt : b.2.lastAccess < e.2.lastAccess
      · rw [if_pos hlt] at h
        subst h
        exact List.mem_cons_of_mem e (ih hp)
      · rw [if_neg hlt] at h
        simp [← h]

theorem pickOldest_le {l : List (String × PoolEntry)} :
    ∀ {v : String × PoolEntry}, pickOldest l = some v →
      ∀ c ∈ l, v.2.lastAccess ≤ c.2.lastAccess := by
  induction l with
  | nil => intro v h; simp [pickOldest] at h
  | cons e es ih =>
    intro v h c hc
    cases hp : pickOldest es with
    | none =>
      simp only [pickOldest, hp, Option.some.injEq] at h
      subst h
      rcases List.mem_cons.mp hc with hce | hces
      · exact hce ▸ le_refl _
      · rw [pickOldest_eq_none hp] at hces; simp at hces
    | some b =>
      simp only [pickOldest, hp, Option.some.injEq] at h
      by_cases hlt : b.2.lastAccess < e.2.lastAccess
      · rw [if_pos hlt] at h
        subst h
        rcases List.mem_cons.mp hc with hce | hces
        · exact hce ▸ le_of_lt hlt
        · exact ih hp c hces
      · rw [if_neg hlt] at h
        subst h
        rcases List.mem_cons.mp hc with hce | hces
        · exact hce ▸ le_refl _
        · exact le_trans (Nat.le_of_not_lt hlt) (ih hp c hces)

theorem removeFirst_length {v : String × PoolEntry} {l : List (String × PoolEntry)}
    (h : v ∈ l) : (removeFirst v l).length + 1 = l.length := by
  induction l with
  | nil => simp at h
  | cons e es ih =>
    simp only [removeFirst]
    by_cases he : e = v
    · rw [if_pos he, List.length_cons]
    · rw [if_neg he, List.length_cons, List.length_cons]
      have hv : v ∈ es := by
        rcases List.mem_cons.mp h with hev | hes
        · exact absurd hev.symm he
        · exact hes
      rw [ih hv]

theorem removeFirst_sublist (v : String × PoolEntry) (l : List (String × PoolEntry)) :
    (removeFirst v l).Sublist l := by
  induction l with
  | nil => simp [removeFirst]
  | cons e es ih =>
    simp only [removeFirst]
    by_cases he : e = v
    · rw [if_pos he]; exact List.sublist_cons_self e es
    · rw [if_neg he]; exact ih.cons₂ e

theorem mem_removeFirst_of_ne {v a : String × PoolEntry} {l : List (String × PoolEntry)}
    (ha : a ∈ l) (hne : a ≠ v) : a ∈ removeFirst v l := by
  induction l with
  | nil => simp at ha
  | cons e es ih =>
    simp only [removeFirst]
    by_cases he : e = v
    · rw [if_pos he]
      rcases List.mem_cons.mp ha with hae | haes
      · exact absurd (hae.trans he) hne
      · exact haes
    · rw [if_neg he]
      rcases List.mem_cons.mp ha with hae | haes
      · simp [hae]
      · exact List.mem_cons_of_mem e (ih haes)

theorem removeFirst_filter_of_neg {v : String × PoolEntry} {l : List (String × PoolEntry)}
    {p : String × PoolEntry → Bool} (hv : p v = false) :
    (removeFirst v l).filter p = l.filter p := by
  induction l with
  | nil => rfl
  | cons e es ih =>
    simp only [removeFirst]
    by_cases he : e = v
    · rw [if_pos he, List.filter_cons, he, hv]
      simp
    · rw [if_neg he, List.filter_cons, List.filter_cons, ih]

theorem mem_evictionCandidates {s : PoolState} {x : String × PoolEntry} :
    x ∈ evictionCandidates s ↔ x ∈ s.entries ∧ refcount s x.1 = 0 := by
  simp [evictionCandidates, List.mem_filter]

theorem refcount_removeVictim (s : PoolState) (v : String × PoolEntry) (n : String) :
    refcount (removeVictim s v) n = refcount s n := rfl

theorem refcount_eq_of_protections {s t : PoolState}
    (h : s.protections = t.protections) (n : String) : refcount s n = refcount t n := by
  unfold refcount
  rw [h]

theorem protectedSize_le_usage (s : PoolState) : protectedSize s ≤ usage s := by
  unfold protectedSize usage
  exact List.Sublist.sum_le_sum ((List.filter_sublist s.entries).map _)
    (fun a _ => Nat.zero_le a)

theorem protectedSize_removeVictim {s : PoolState} {v : String × PoolEntry}
    (hv : refcount s v.1 = 0) : protectedSize (removeVictim s v) = protectedSize s := by
  unfold protectedSize
  have h2 : ∀ e : String × PoolEntry,
      (decide (refcount (removeVictim s v) e.1 ≠ 0)) = (decide (refcount s e.1 ≠ 0)) :=
    fun _ => rfl
  have h1 : (removeVictim s v).entries = removeFirst v s.entries := rfl
  rw [h1]
  simp only [h2]
  rw [removeFirst_filter_of_neg (by simp [hv])]

theorem evictLoopAux_ok_spec {cap : Nat} :
    ∀ {fuel : Nat} {s s2 : PoolState} {ev : List (String × PoolEntry)},
      evictLoopAux cap fuel s = Except.ok (s2, ev) →
      s2.protections = s.protections ∧ s2.maxPoolSize = s.maxPoolSize ∧
      usage s2 ≤ cap ∧ s2.entries.Sublist s.entries ∧
      (∀ x ∈ ev, x ∈ evictionCandidates s) ∧
      (∀ n e, (n, e) ∈ s.entries → refcount s n ≠ 0 → (n, e) ∈ s2.entries) ∧
      List.Chain' (fun x y => x.2.lastAccess ≤ y.2.lastAccess) ev ∧
      (∀ x ∈ ev, ∀ c ∈ evictionCandidates s2, x.2.lastAccess ≤ c.2.lastAccess) := by
  intro fuel
  induction fuel with
  | zero =>
    intro s s2 ev h
    by_cases hu : usage s ≤ cap
    · rw [evictLoopAux, if_pos hu] at h
      simp only [Except.ok.injEq, Prod.mk.injEq] at h
      obtain ⟨hs, hev⟩ := h
      subst hs; subst hev
      exact ⟨rfl, rfl, hu, List.Sublist.refl _, by simp, fun n e he _ => he,
        List.chain'_nil, by simp⟩
    · exfalso
      cases hp : pickOldest (evictionCandidates s) with
      | none => rw [evictLoopAux, if_neg hu, hp] at h; simp at h
      | some v => rw [evictLoopAux, if_neg hu, hp] at h; simp at h
  | succ f ih =>
    intro s s2 ev h
    by_cases hu : usage s ≤ cap
    · rw [evictLoopAux, if_pos hu] at h
      simp only [Except.ok.injEq, Prod.mk.injEq] at h
      obtain ⟨hs, hev⟩ := h
      subst hs; subst hev
      exact ⟨rfl, rfl, hu, List.Sublist.refl _, by simp, fun n e he _ => he,
        List.chain'_nil, by simp⟩
    · cases hp : pickOldest (evictionCandidates s) with
      | none => rw [evictLoopAux, if_neg hu, hp] at h; simp at h
      | some v =>
        cases hrec : evictLoopAux cap f (removeVictim s v) with
        | error e =>
          rw [evictLoopAux, if_neg hu, hp] at h
          simp only [hrec] at h
          exact absurd h (by simp)
        | ok pr =>
          obtain ⟨s3, ev1⟩ := pr
          rw [evictLoopAux, if_neg hu, hp] at h
          simp only [hrec, Except.ok.injEq, Prod.mk.injEq] at h
          obtain ⟨hs, hev⟩ := h
          subst hs; subst hev
          obtain ⟨ih1, ih2, ih3, ih4, ih5, ih6, ih7, ih8⟩ := ih hrec
          have hvc : v ∈ evictionCandidates s := pickOldest_mem hp
          obtain ⟨hvmem, hvrc⟩ := mem_evictionCandidates.mp hvc
          have hsub1 : (removeVictim s v).entries.Sublist s.entries :=
            removeFirst_sublist v s.entries
          have hrc1 : ∀ n, refcount (removeVictim s v) n = refcount s n := fun _ => rfl
          have hcand1 : ∀ x, x ∈ evictionCandidates (removeVictim s v) →
              x ∈ evictionCandidates s := by
            intro x hx
            rw [mem_evictionCandidates] at hx ⊢
            exact ⟨hsub1.subset hx.1, (hrc1 x.1) ▸ hx.2⟩
          have hrc3 : ∀ n, refcount s3 n = refcount s n := by
            intro n
            exact (refcount_eq_of_protections ih1 n).trans (hrc1 n)
          have hcand3 : ∀ c, c ∈ evictionCandidates s3 → c ∈ evictionCandidates s := by
            intro c hc
            rw [mem_evictionCandidates] at hc ⊢
            exact ⟨(ih4.trans hsub1).subset hc.1, (hrc3 c.1) ▸ hc.2⟩
          refine ⟨ih1, ih2, ih3, ih4.trans hsub1, ?_, ?_, ?_, ?_⟩
          · intro x hx
            rcases List.mem_cons.mp hx with hxv | hxev
            · exact hxv ▸ hvc
            · exact hcand1 x (ih5 x hxev)
          · intro n e he hr
            have hne : (n, e) ≠ v := by
              intro heq
              have : n = v.1 := congrArg Prod.fst heq
              exact hr (this ▸ hvrc)
            exact ih6 n e (mem_removeFirst_of_ne he hne) ((hrc1 n).symm ▸ hr)
          · rw [List.chain'_cons']
            refine ⟨?_, ih7⟩
            intro y hy
            have hymem : y ∈ ev1 := List.mem_of_mem_head? hy
            exact pickOldest_le hp y (hcand1 y (ih5 y hymem))
          · intro x hx c hc
            rcases List.mem_cons.mp hx with hxv | hxev
            · exact hxv ▸ pickOldest_le hp c (hcand3 c hc)
            · exact ih8 x hxev c hc

theorem evictLoopAux_capacity {cap : Nat} :
    ∀ {fuel : Nat} {s : PoolState}, cap < protectedSize s →
      evictLoopAux cap fuel s = Except.error PoolError.capacityError := by
  intro fuel
  induction fuel with
  | zero =>
    intro s h
    have hu : ¬ usage s ≤ cap :=
      Nat.not_le.mpr (lt_of_lt_of_le h (protectedSize_le_usage s))
    cases hp : pickOldest (evictionCandidates s) with
    | none => rw [evictLoopAux, if_neg hu, hp]
    | some v => rw [evictLoopAux, if_neg hu, hp]
  | succ f ih =>
    intro s h
    have hu : ¬ usage s ≤ cap :=
      Nat.not_le.mpr (lt_of_lt_of_le h (protectedSize_le_usage s))
    cases hp : pickOldest (evictionCandidates s) with
    | none => rw [evictLoopAux, if_neg hu, hp]
    | some v =>
      have hvrc : refcount s v.1 = 0 :=
        (mem_evictionCandidates.mp (pickOldest_mem hp)).2
      have hrec := ih (s := removeVictim s v) ((protectedSize_removeVictim hvrc).symm ▸ h)
      rw [evictLoopAux, if_neg hu, hp]
      simp only [hrec]

theorem hasVerifiedEntry_iff {s : PoolState} {a : AssetDescriptor} :
    hasVerifiedEntry s a = true ↔
      ∃ e, entryFor s a.name = some e ∧ e.digest = a.hash := by
  unfold hasVerifiedEntry
  cases he : entryFor s a.name with
  | none => simp
  | some e => simp

theorem attemptsFrom_all_fail {env : FetchEnv} {name : String} :
    ∀ {r i : Nat}, (∀ d, d ≤ r → ∃ k, env name (i + d) = AttemptOutcome.failure k) →
      ∃ k, env name (i + r) = AttemptOutcome.failure k ∧
        attemptsFrom env name i r = (r + 1, AttemptOutcome.failure k) := by
  intro r
  induction r with
  | zero =>
    intro i h
    obtain ⟨k, hk⟩ := h 0 (le_refl 0)
    rw [Nat.add_zero] at hk
    refine ⟨k, ?_, ?_⟩
    · rw [Nat.add_zero]; exact hk
    · simp [attemptsFrom, hk]
  | succ r ih =>
    intro i h
    obtain ⟨k0, hk0⟩ := h 0 (Nat.zero_le _)
    rw [Nat.add_zero] at hk0
    obtain ⟨k, hk, hrec⟩ := ih (i := i + 1) (fun d hd => by
      have hh := h (d + 1) (Nat.succ_le_succ hd)
      rwa [show i + (d + 1) = i + 1 + d by omega] at hh)
    refine ⟨k, ?_, ?_⟩
    · rwa [show i + (r + 1) = i + 1 + r by omega]
    · simp [attemptsFrom, hk0, hrec]

theorem attemptsFrom_success {env : FetchEnv} {name : String} {e : PoolEntry} :
    ∀ {d i r : Nat}, d ≤ r →
      env name (i + d) = AttemptOutcome.success e →
      (∀ j, j < d → ∃ k, env name (i + j) = AttemptOutcome.failure k) →
      attemptsFrom env name i r = (d + 1, AttemptOutcome.success e) := by
  intro d
  induction d with
  | zero =>
    intro i r _ hs _
    rw [Nat.add_zero] at hs
    cases r with
    | zero => simp [attemptsFrom, hs]
    | succ r1 => simp [attemptsFrom, hs]
  | succ d ih =>
    intro i r hdr hs hf
    obtain ⟨k0, hk0⟩ := hf 0 (Nat.succ_pos d)
    rw [Nat.add_zero] at hk0
    obtain ⟨r1, rfl⟩ : ∃ r1, r = r1 + 1 := ⟨r - 1, by omega⟩
    have hdr1 : d ≤ r1 := by omega
    have hs1 : env name (i + 1 + d) = AttemptOutcome.success e := by
      rwa [show i + 1 + d = i + (d + 1) by omega]
    have hf1 : ∀ j, j < d → ∃ k, env name (i + 1 + j) = AttemptOutcome.failure k := by
      intro j hj
      have hh := hf (j + 1) (Nat.succ_lt_succ hj)
      rwa [show i + (j + 1) = i + 1 + j by omega] at hh
    simp [attemptsFrom, hk0, ih hdr1 hs1 hf1]

theorem processAssets_length (env : FetchEnv) (opts : FetchOptions) :
    ∀ (coll : List AssetDescriptor) (s : PoolState) (i : Nat),
      (processAssets env opts s i coll).2.1.length = coll.length := by
  intro coll
  induction coll with
  | nil => intro s i; rfl
  | cons a rest ih =>
    intro s i
    simp only [processAssets, List.length_cons]
    rw [ih]

theorem processAssets_get (env : FetchEnv) (opts : FetchOptions) :
    ∀ (coll : List AssetDescriptor) (s : PoolState) (i j : Nat) (a : AssetDescriptor),
      coll[j]? = some a →
      ∃ sj, (processAssets env opts s i coll).2.1[j]? =
        some ((fetchAsset env opts sj (i + j) a).2.1,
              (fetchAsset env opts sj (i + j) a).2.2.1) := by
  intro coll
  induction coll with
  | nil => intro s i j a h; simp at h
  | cons b rest ih =>
    intro s i j a h
    cases j with
    | zero =>
      simp only [List.getElem?_cons_zero, Option.some.injEq] at h
      subst h
      refine ⟨s, ?_⟩
      simp only [processAssets, List.getElem?_cons_zero, Nat.add_zero]
    | succ j =>
      simp only [List.getElem?_cons_succ] at h
      obtain ⟨sj, hsj⟩ := ih (fetchAsset env opts s i b).1 (i + 1) j a h
      refine ⟨sj, ?_⟩
      simp only [processAssets, List.getElem?_cons_succ]
      rw [show i + (j + 1) = i + 1 + j by omega]
      exact hsj

theorem processAssets_all_ready (env : FetchEnv) (opts : FetchOptions) :
    ∀ (coll : List AssetDescriptor) (s : PoolState) (i : Nat),
      (∀ a ∈ coll, hasVerifiedEntry s a = true) →
      processAssets env opts s i coll =
        (s, coll.map (fun _ => (AssetStatus.skipped, (none : Option FileEvent))), 0) := by
  intro coll
  induction coll with
  | nil => intro s i _; rfl
  | cons a rest ih =>
    intro s i h
    have ha : hasVerifiedEntry s a = true := h a (List.mem_cons_self a rest)
    have hrest : ∀ b ∈ rest, hasVerifiedEntry s b = true :=
      fun b hb => h b (List.mem_cons_of_mem a hb)
    have hfa : fetchAsset env opts s i a = (s, AssetStatus.skipped, none, 0) := by
      rw [fetchAsset, if_pos ha]
    simp only [processAssets, hfa, ih s (i + 1) hrest, List.map_cons]

theorem fetchAsset_event_spec (env : FetchEnv) (opts : FetchOptions) (s : PoolState)
    (idx : Nat) (a : AssetDescriptor) :
    ((fetchAsset env opts s idx a).2.1 = AssetStatus.skipped ↔
      (fetchAsset env opts s idx a).2.2.1 = none) ∧
    (∀ ev, (fetchAsset env opts s idx a).2.2.1 = some ev →
      ev.index = idx ∧ ev.fileName = a.name ∧
      (ev.error = none ↔ ∃ e, (fetchAsset env opts s idx a).2.1 = AssetStatus.fetched e)) := by
  by_cases hv : hasVerifiedEntry s a = true
  · simp [fetchAsset, hv]
  · simp only [Bool.not_eq_true] at hv
    cases ho : (attemptsFrom env a.name 0 opts.fileRetryCount).2 with
    | success e =>
      constructor
      · simp [fetchAsset, hv, ho]
      · intro ev hev
        simp only [fetchAsset, hv, Bool.false_eq_true, if_false, ho,
          Option.some.injEq] at hev
        subst hev
        exact ⟨rfl, rfl, by simp [fetchAsset, hv, ho]⟩
    | failure k =>
      constructor
      · simp [fetchAsset, hv, ho]
      · intro ev hev
        simp only [fetchAsset, hv, Bool.false_eq_true, if_false, ho,
          Option.some.injEq] at hev
        subst hev
        simp [fetchAsset, hv, ho]

end AssetPool

namespace AssetPool

/-- C1: `Fetcher.start()` rejects only on structural problems that prevent any
processing (modelled by the unusable-pool flag); whatever the per-asset
outcomes the environment produces, with a usable pool `start()` resolves and
every asset of the collection is processed (one per-asset record each), so an
individual asset's fetch failure never causes a rejection and never aborts the
processing of sibling assets. -/
theorem C1_start_rejects_only_structural (env : FetchEnv) (s : PoolState)
    (coll : List AssetDescriptor) (opts : FetchOptions) :
    start env false s coll opts = Except.error PoolError.lockError ∧
    ∃ r, start env true s coll opts = Except.ok r ∧ r.perAsset.length = coll.length := by
  refine ⟨rfl, ?_⟩
  refine ⟨_, rfl, ?_⟩
  exact processAssets_length env opts coll s 0

/-- C2: a PoolEntry with nonzero protection refcount is never removed by an
eviction pass; after `unprotectAssets(T)` drops an asset's refcount to zero,
that asset's entry is an eviction candidate. -/
theorem C2_protected_never_evicted (s s2 : PoolState) (cap : Nat)
    (ev : List (String × PoolEntry)) (T n : String) (e : PoolEntry) :
    (evictLoop cap s = Except.ok (s2, ev) → (n, e) ∈ s.entries → refcount s n ≠ 0 →
      (n, e) ∈ s2.entries) ∧
    ((n, e) ∈ (unprotectAssets s T).entries → refcount (unprotectAssets s T) n = 0 →
      (n, e) ∈ evictionCandidates (unprotectAssets s T)) := by
  constructor
  · intro h hmem hrc
    exact (evictLoopAux_ok_spec h).2.2.2.2.2.1 n e hmem hrc
  · intro hmem hrc
    exact mem_evictionCandidates.mpr ⟨hmem, hrc⟩

theorem C2_witness :
    ("a.mpg", entryA) ∈ poolA2.entries ∧
    ("a.mpg", entryA) ∈ evictionCandidates (unprotectAssets poolAB "t") :=
  ⟨(C2_protected_never_evicted poolAB poolA2 15 [("b.mp4", entryB)] "t" "a.mpg" entryA).1
      rfl (by decide) (by decide),
    (C2_protected_never_evicted poolAB poolA2 15 [("b.mp4", entryB)] "t" "a.mpg" entryA).2
      (by decide) (by decide)⟩

/-- C3: lowering the cap with `setMaximumPoolSize` evicts only entries with
protection refcount zero, in oldest-access-time-first order (the eviction
sequence is monotone in access time and every evicted entry is at least as
old as every surviving candidate), until usage is at or below the new cap;
if the protected entries alone exceed the new cap, the call fails with
`CapacityError` and total pool usage is unchanged. -/
theorem C3_setMaximumPoolSize_spec (s : PoolState) (bytes : Nat) :
    (∀ v ∈ (setMaximumPoolSize s bytes).2.1, refcount s v.1 = 0) ∧
    ((setMaximumPoolSize s bytes).2.2 = none →
      usage (setMaximumPoolSize s bytes).1 ≤ bytes) ∧
    List.Chain' (fun x y => x.2.lastAccess ≤ y.2.lastAccess)
      (setMaximumPoolSize s bytes).2.1 ∧
    (∀ v ∈ (setMaximumPoolSize s bytes).2.1,
      ∀ c ∈ evictionCandidates (setMaximumPoolSize s bytes).1,
        v.2.lastAccess ≤ c.2.lastAccess) ∧
    (bytes < protectedSize s →
      (setMaximumPoolSize s bytes).2.2 = some PoolError.capacityError ∧
      usage (setMaximumPoolSize s bytes).1 = usage s) := by
  cases hres : evictLoop bytes { s with maxPoolSize := bytes } with
  | ok pr =>
    obtain ⟨s2, ev⟩ := pr
    have hset : setMaximumPoolSize s bytes = (s2, ev, none) := by
      simp only [setMaximumPoolSize, hres]
    obtain ⟨sp1, sp2, sp3, sp4, sp5, sp6, sp7, sp8⟩ := evictLoopAux_ok_spec hres
    rw [hset]
    refine ⟨?_, ?_, ?_, ?_, ?_⟩
    · intro v hv
      exact (mem_evictionCandidates.mp (sp5 v hv)).2
    · intro _
      exact sp3
    · exact sp7
    · exact sp8
    · intro hlt
      exfalso
      rw [evictLoop,
        evictLoopAux_capacity (s := { s with maxPoolSize := bytes }) hlt] at hres
      exact Except.noConfusion hres
  | error e =>
    have hset : setMaximumPoolSize s bytes = (s, [], some e) := by
      simp only [setMaximumPoolSize, hres]
    rw [hset]
    refine ⟨by simp, by simp, List.chain'_nil, by simp, ?_⟩
    intro hlt
    rw [evictLoop,
      evictLoopAux_capacity (s := { s with maxPoolSize := bytes }) hlt] at hres
    injection hres with he
    subst he
    exact ⟨rfl, rfl⟩

theorem C3_witness :
    (setMaximumPoolSize poolA2 5).2.2 = some PoolError.capacityError ∧
    usage (setMaximumPoolSize poolA2 5).1 = usage poolA2 :=
  (C3_setMaximumPoolSize_spec poolA2 5).2.2.2.2 (by decide)

/-- C4: `areAssetsReady(collection)` returns true iff every asset in the
collection has a committed PoolEntry whose digest matches that asset's
declared hash in its descriptor. -/
theorem C4_areAssetsReady_iff (s : PoolState) (coll : List AssetDescriptor) :
    areAssetsReady s coll = true ↔
      ∀ a ∈ coll, ∃ e, entryFor s a.name = some e ∧ e.digest = a.hash := by
  rw [areAssetsReady, List.all_eq_true]
  constructor
  · intro h a ha
    exact hasVerifiedEntry_iff.mp (h a ha)
  · intro h a ha
    exact hasVerifiedEntry_iff.mpr (h a ha)

theorem C4_witness :
    ∀ a ∈ [assetA], ∃ e, entryFor poolReady a.name = some e ∧ e.digest = a.hash :=
  (C4_areAssetsReady_iff poolReady [assetA]).mp (by decide)

/-- C5: running `start()` on a collection whose assets all already have
verified committed entries performs no network transfer at all, skips every
asset, and returns the pool state unchanged (so total usage is unchanged). -/
theorem C5_refetch_idempotent (env : FetchEnv) (s : PoolState)
    (coll : List AssetDescriptor) (opts : FetchOptions)
    (h : areAssetsReady s coll = true) :
    start env true s coll opts =
      Except.ok { state := s,
                  perAsset := coll.map (fun _ => (AssetStatus.skipped, none)),
                  transfers := 0 } := by
  have hall : ∀ a ∈ coll, hasVerifiedEntry s a = true := by
    rw [areAssetsReady, List.all_eq_true] at h
    exact h
  have hp := processAssets_all_ready env opts coll s 0 hall
  simp [start, hp]

theorem C5_witness :
    start envFail true poolReady [assetA] optsEx =
      Except.ok { state := poolReady, perAsset := [(AssetStatus.skipped, none)],
                  transfers := 0 } :=
  C5_refetch_idempotent envFail poolReady [assetA] optsEx (by decide)

/-- C6: for every failure kind the fetcher retries an asset's transfer up to
`fileRetryCount` additional attempts beyond the first; if every attempt
fails, exactly `fileRetryCount + 1` attempts are made and the asset is marked
failed; a success at attempt `i` stops after `i + 1` attempts; with
`fileRetryCount = 0` a single failure ends the run for that asset. -/
theorem C6_retry_semantics (env : FetchEnv) (opts : FetchOptions) (s : PoolState)
    (idx : Nat) (a : AssetDescriptor) :
    ((∀ i, i ≤ opts.fileRetryCount → ∃ k, env a.name i = AttemptOutcome.failure k) →
      (attemptsFrom env a.name 0 opts.fileRetryCount).1 = opts.fileRetryCount + 1 ∧
      ∃ k, (attemptsFrom env a.name 0 opts.fileRetryCount).2 = AttemptOutcome.failure k) ∧
    (∀ i e, i ≤ opts.fileRetryCount → env a.name i = AttemptOutcome.success e →
      (∀ j, j < i → ∃ k, env a.name j = AttemptOutcome.failure k) →
      attemptsFrom env a.name 0 opts.fileRetryCount = (i + 1, AttemptOutcome.success e)) ∧
    (∀ k, opts.fileRetryCount = 0 → env a.name 0 = AttemptOutcome.failure k →
      attemptsFrom env a.name 0 opts.fileRetryCount = (1, AttemptOutcome.failure k)) ∧
    (hasVerifiedEntry s a = false → ∀ k,
      (attemptsFrom env a.name 0 opts.fileRetryCount).2 = AttemptOutcome.failure k →
      (fetchAsset env opts s idx a).2.1 = AssetStatus.failed k) := by
  refine ⟨?_, ?_, ?_, ?_⟩
  · intro h
    obtain ⟨k, _, heq⟩ := attemptsFrom_all_fail (i := 0) (fun d hd => by
      simpa using h d hd)
    rw [heq]
    exact ⟨rfl, ⟨k, rfl⟩⟩
  · intro i e hi hs hf
    exact attemptsFrom_success (i := 0) hi (by simpa using hs)
      (fun j hj => by simpa using hf j hj)
  · intro k h0 hk
    rw [h0]
    simp [attemptsFrom, hk]
  · intro hv k hatt
    simp [fetchAsset, hv, hatt]

theorem C6_witness :
    ((attemptsFrom envFail "a.mpg" 0 3).1 = 3 + 1 ∧
      ∃ k, (attemptsFrom envFail "a.mpg" 0 3).2 = AttemptOutcome.failure k) ∧
    (fetchAsset envFail optsEx poolEmpty 0 assetA).2.1 =
      AssetStatus.failed FetchFailure.networkError :=
  ⟨(C6_retry_semantics envFail optsEx poolEmpty 0 assetA).1
      (fun _ _ => ⟨FetchFailure.networkError, rfl⟩),
    (C6_retry_semantics envFail optsEx poolEmpty 0 assetA).2.2.2 rfl
      FetchFailure.networkError rfl⟩

/-- C7 counterexample: running `start()` over a single-asset collection whose
asset is already verified in the pool emits zero "file" events, not exactly
one per asset of the collection — an asset that is skipped because it is
already in the pool gets no "file" event at all, matching the source comment
at src/bs-assetpool-example.js lines 85-91. -/
theorem C7_counterexample_skipped_asset :
    start envFail true poolReady [assetA] optsEx =
      Except.ok { state := poolReady, perAsset := [(AssetStatus.skipped, none)],
                  transfers := 0 } ∧
    (StartResult.events { state := poolReady,
                          perAsset := [(AssetStatus.skipped, none)],
                          transfers := 0 }).length = 0 ∧
    [assetA].length = 1 :=
  ⟨rfl, rfl, rfl⟩

/-- C7 (amended): for every asset of the collection that is not skipped (the
pool does not already hold a verified matching entry), exactly one "file"
event is emitted, after that asset's final attempt, carrying the asset's
stable original collection index, its file name and a response code, with the
error field absent exactly when the final attempt succeeded; a skipped asset
gets no "file" event. -/
theorem C7_file_event_per_attempted_asset (env : FetchEnv) (s : PoolState)
    (coll : List AssetDescriptor) (opts : FetchOptions) (r : StartResult)
    (h : start env true s coll opts = Except.ok r) :
    r.perAsset.length = coll.length ∧
    (∀ j a, coll[j]? = some a →
      ∃ (st : AssetStatus) (oev : Option FileEvent),
        r.perAsset[j]? = some (st, oev) ∧
        (st = AssetStatus.skipped ↔ oev = none) ∧
        (∀ ev : FileEvent, oev = some ev → ev.index = j ∧ ev.fileName = a.name ∧
          (ev.error = none ↔ ∃ e2, st = AssetStatus.fetched e2))) := by
  rw [start, if_pos rfl] at h
  injection h with h
  subst h
  constructor
  · exact processAssets_length env opts coll s 0
  · intro j a hja
    obtain ⟨sj, hsj⟩ := processAssets_get env opts coll s 0 j a hja
    refine ⟨(fetchAsset env opts sj (0 + j) a).2.1,
      (fetchAsset env opts sj (0 + j) a).2.2.1, hsj, ?_, ?_⟩
    · exact (fetchAsset_event_spec env opts sj (0 + j) a).1
    · intro ev hev
      obtain ⟨h1, h2, h3⟩ := (fetchAsset_event_spec env opts sj (0 + j) a).2 ev hev
      exact ⟨by simpa using h1, h2, h3⟩

theorem C7_witness :
    ∃ (st : AssetStatus) (oev : Option FileEvent),
      runFailR.perAsset[0]? = some (st, oev) ∧
      (st = AssetStatus.skipped ↔ oev = none) ∧
      (∀ ev : FileEvent, oev = some ev → ev.index = 0 ∧ ev.fileName = assetA.name ∧
        (ev.error = none ↔ ∃ e2, st = AssetStatus.fetched e2)) :=
  (C7_file_event_per_attempted_asset envFail poolEmpty [assetA] optsEx runFailR rfl).2
    0 assetA rfl

/-- C8: `getPath(name)` returns the filesystem path of the asset's current
verified PoolEntry when one exists and fails with `NotReadyError` when none
does; in both cases the pool state is returned unchanged — the call mutates
nothing. -/
theorem C8_getPath_spec (s : PoolState) (name : String) :
    (getPath s name).2 = s ∧
    (∀ e, entryFor s name = some e → (getPath s name).1 = Except.ok e.path) ∧
    (entryFor s name = none →
      (getPath s name).1 = Except.error PoolError.notReadyError) := by
  refine ⟨?_, ?_, ?_⟩
  · cases he : entryFor s name <;> simp [getPath, he]
  · intro e he
    simp [getPath, he]
  · intro he
    simp [getPath, he]

theorem C8_witness :
    (getPath poolReady "a.mpg").2 = poolReady ∧
    (getPath poolReady "a.mpg").1 = Except.ok entryA.path :=
  ⟨(C8_getPath_spec poolReady "a.mpg").1,
    (C8_getPath_spec poolReady "a.mpg").2.1 entryA rfl⟩

end AssetPool

namespace ExampleScript

/-- C9: `progressString` is total over progress events with a numeric
`currentFileTransferred`: it returns `"<n> of unknown"` when
`currentFileTotal` is undefined and otherwise a `"<n> of <m> <p>%"` string;
the percentage division is unguarded, so for an event whose
`currentFileTotal` is 0 the function does not fail but renders the
percentage as `"NaN"` (when nothing is transferred) or `"Infinity"`. -/
theorem C9_progressString_total (event : ProgressEvent) :
    (event.currentFileTotal = none →
      progressString event = toString event.currentFileTransferred ++ " of unknown") ∧
    (∀ m, event.currentFileTotal = some m →
      progressString event =
        toString event.currentFileTransferred ++ " of " ++ toString m ++ " "
          ++ toFixed0 (jsDiv (100 * event.currentFileTransferred) m) ++ "%") ∧
    (event.currentFileTotal = some 0 →
      (event.currentFileTransferred = 0 →
        jsDiv (100 * event.currentFileTransferred) 0 = JSNum.nan ∧
        progressString event = "0 of 0 NaN%") ∧
      (event.currentFileTransferred ≠ 0 →
        jsDiv (100 * event.currentFileTransferred) 0 = JSNum.posInf ∧
        progressString event =
          toString event.currentFileTransferred ++ " of " ++ "0" ++ " "
            ++ "Infinity" ++ "%")) := by
  refine ⟨?_, ?_, ?_⟩
  · intro h
    simp [progressString, h]
  · intro m h
    simp [progressString, h]
  · intro h
    constructor
    · intro ht
      have hj : jsDiv (100 * event.currentFileTransferred) 0 = JSNum.nan := by
        simp [jsDiv, ht]
      refine ⟨hj, ?_⟩
      simp only [progressString, h, ht]
      rfl
    · intro ht
      have h100 : ¬ 100 * event.currentFileTransferred = 0 := by
        intro hc
        exact ht (by omega)
      have hj : jsDiv (100 * event.currentFileTransferred) 0 = JSNum.posInf := by
        simp [jsDiv, h100]
      refine ⟨hj, ?_⟩
      simp only [progressString, h, hj]
      rfl

theorem C9_witness :
    jsDiv (100 * (0 : Nat)) 0 = JSNum.nan ∧
    progressString { index := 0, total := 1, fileName := "f",
                     currentFileTransferred := 0,
                     currentFileTotal := some 0 } = "0 of 0 NaN%" :=
  ((C9_progressString_total
      { index := 0, total := 1, fileName := "f",
        currentFileTransferred := 0, currentFileTotal := some 0 }).2.2 rfl).1 rfl

/-- C10: `ensureDirectoryExists(path)` returns normally both when `mkdir`
creates the directory and when it fails with code `'EEXIST'` (the error is
swallowed), and it throws exactly when `mkdir` fails with an error whose code
is not `'EEXIST'`; on the filesystem model of `mkdirSync` it therefore always
returns normally, so it is idempotent and safe to call repeatedly. -/
theorem C10_ensureDirectoryExists_spec (mkdir : String → Except JSError FileSystem)
    (path : String) (fs : FileSystem) :
    (∀ fs2, mkdir path = Except.ok fs2 →
      ensureDirectoryExists mkdir path = Except.ok ()) ∧
    (∀ err, mkdir path = Except.error err → err.code = "EEXIST" →
      ensureDirectoryExists mkdir path = Except.ok ()) ∧
    (∀ err, ensureDirectoryExists mkdir path = Except.error err ↔
      (mkdir path = Except.error err ∧ err.code ≠ "EEXIST")) ∧
    ensureDirectoryExists (mkdirSync fs) path = Except.ok () := by
  refine ⟨?_, ?_, ?_, ?_⟩
  · intro fs2 hm
    simp [ensureDirectoryExists, hm]
  · intro err hm hc
    simp [ensureDirectoryExists, hm, hc]
  · intro err
    constructor
    · intro h
      cases hm : mkdir path with
      | ok fs2 => simp [ensureDirectoryExists, hm] at h
      | error e =>
        simp only [ensureDirectoryExists, hm] at h
        by_cases hc : e.code = "EEXIST"
        · simp [hc] at h
        · rw [if_pos hc] at h
          injection h with h2
          subst h2
          exact ⟨rfl, hc⟩
    · intro hpair
      simp [ensureDirectoryExists, hpair.1, hpair.2]
  · by_cases hp : path ∈ fs.dirs
    · simp [ensureDirectoryExists, mkdirSync, hp]
    · simp [ensureDirectoryExists, mkdirSync, hp]

theorem C10_witness :
    ensureDirectoryExists (fun _ => Except.error ⟨"EEXIST"⟩) "examplePool" =
      Except.ok () ∧
    ensureDirectoryExists (mkdirSync ⟨["examplePool"]⟩) "examplePool" =
      Except.ok () :=
  ⟨(C10_ensureDirectoryExists_spec (fun _ => Except.error ⟨"EEXIST"⟩)
      "examplePool" ⟨[]⟩).2.1 ⟨"EEXIST"⟩ rfl rfl,
    (C10_ensureDirectoryExists_spec (mkdirSync ⟨["examplePool"]⟩)
      "examplePool" ⟨["examplePool"]⟩).2.2.2⟩

end ExampleScript
